import Mathlib

/-!
Shallow embedding of the Tetris game logic of `tetris-with-friends`
(packages/server/src/game/index.ts, types.ts, RoomManager.ts).

Conventions of the embedding:
* JS `number` cell values are `Nat` (the program only ever stores 0..8).
* Piece positions are `Int` (the x/y fields can go negative during moves
  and wall kicks).
* `board[y][x]` reads become `(b.getD y []).getD x 0`; this agrees with
  the source wherever the source's indices are in bounds, which the
  source's own guards ensure at every access site.
* `Math.random()`-derived values are threaded as explicit parameters
  (`rand` index streams for the Fisher-Yates shuffle, `holes` streams
  for garbage-line hole columns); hypotheses state the ranges that
  `Math.floor(Math.random() * k)` guarantees.
* The unbounded `while`/`for` loops (`hardDropPiece`, the `clearLines`
  scan) are given explicit fuel; the fuel chosen is proved (or argued in
  the accompanying lemmas) to exceed the loop's maximal iteration count
  on the boards the theorems quantify over.
-/

namespace TetrisWF

/-- The seven tetromino kinds (`TetrominoType` in types.ts). -/
inductive Tet where
  | I | O | T | L | J | S | Z
deriving DecidableEq, Repr

/-- Embeds `Cell` in types.ts: a board cell value. -/
abbrev Cell := Nat

abbrev Row := List Cell

/-- Embeds `Board` in types.ts: a 2D grid of cells, outer list indexed by `y`. -/
abbrev Board := List Row

def BOARD_WIDTH : Nat := 10

def BOARD_HEIGHT : Nat := 20

/-- Embeds `Position` in types.ts. Coordinates are signed in the source. -/
structure Position where
  x : Int
  y : Int
deriving DecidableEq, Repr

/-- Embeds `Piece` in types.ts. -/
structure Piece where
  type : Tet
  shape : List (List Nat)
  position : Position
  rotation : Nat
deriving DecidableEq, Repr

/-- The `TETROMINOES[type].shape` table of index.ts. -/
def tetrominoShape : Tet → List (List Nat)
  | .I => [[0,0,0,0],[1,1,1,1],[0,0,0,0],[0,0,0,0]]
  | .O => [[1,1],[1,1]]
  | .T => [[0,1,0],[1,1,1],[0,0,0]]
  | .L => [[0,0,1],[1,1,1],[0,0,0]]
  | .J => [[1,0,0],[1,1,1],[0,0,0]]
  | .S => [[0,1,1],[1,1,0],[0,0,0]]
  | .Z => [[1,1,0],[0,1,1],[0,0,0]]

/-- Embeds `createEmptyBoard` of index.ts (the logging is side-effect only). -/
def createEmptyBoard : Board :=
  List.replicate BOARD_HEIGHT (List.replicate BOARD_WIDTH 0)

/-- Embeds `createPiece` of index.ts: spawn at
`x = floor((BOARD_WIDTH - shape[0].length) / 2)`, `y = 0`, rotation 0. -/
def createPiece (t : Tet) : Piece :=
  { type := t
    shape := tetrominoShape t
    position := { x := ((BOARD_WIDTH - ((tetrominoShape t).headD []).length) / 2 : Nat), y := 0 }
    rotation := 0 }

/-- Embeds `isValidMove` of index.ts: the two nested `for` loops become `all`
over `List.range`; the body is the source's disjunction of bounds and
occupancy checks, negated. -/
def isValidMove (p : Piece) (b : Board) : Bool :=
  (List.range p.shape.length).all fun y =>
    (List.range ((p.shape.getD y []).length)).all fun x =>
      if (p.shape.getD y []).getD x 0 = 0 then true
      else
        let boardX : Int := p.position.x + x
        let boardY : Int := p.position.y + y
        ¬(boardX < 0 ∨ boardX ≥ (BOARD_WIDTH : Int) ∨ boardY < 0 ∨
          boardY ≥ (BOARD_HEIGHT : Int) ∨
          (boardY ≥ 0 ∧ (b.getD boardY.toNat []).getD boardX.toNat 0 ≠ 0))

/-- Embeds `movePiece` of index.ts. -/
def movePiece (p : Piece) (dx dy : Int) : Piece :=
  { p with position := { x := p.position.x + dx, y := p.position.y + dy } }

/-- Embeds `rotateMatrix` of index.ts: `result[j][N-1-i] = matrix[i][j]` for all
`i j < N`, on a zero-initialised N×N result. Every result cell `(r, c)`
is written exactly once (by `i = N-1-c`, `j = r`), so the closed form is
`result[r][c] = matrix[N-1-c][r]`. -/
def rotateMatrix (m : List (List Nat)) : List (List Nat) :=
  let n := m.length
  (List.range n).map fun r => (List.range n).map fun c =>
    (m.getD (n - 1 - c) []).getD r 0

/-- The `wallKickOffsets` table of `rotatePiece` in index.ts, in source
order: left 1, right 1, up 1, left 2, right 2. -/
def wallKickOffsets : List (Int × Int) :=
  [(-1, 0), (1, 0), (0, -1), (-2, 0), (2, 0)]

/-- Applying one wall-kick offset to the rotated piece. -/
def kickPiece (rp : Piece) (o : Int × Int) : Piece :=
  { rp with position := { x := rp.position.x + o.1, y := rp.position.y + o.2 } }

/-- The `for (const offset of wallKickOffsets)` loop of `rotatePiece`:
return the first kicked candidate that validates, if any. -/
def tryKicks (offs : List (Int × Int)) (rp : Piece) (b : Board) : Option Piece :=
  match offs with
  | [] => none
  | o :: rest =>
      let kicked := kickPiece rp o
      if isValidMove kicked b then some kicked else tryKicks rest rp b

/-- Embeds `rotatePiece` of index.ts. -/
def rotatePiece (p : Piece) (b : Board) : Piece :=
  let rotatedShape := rotateMatrix p.shape
  let rotated : Piece := { p with shape := rotatedShape, rotation := (p.rotation + 1) % 4 }
  if isValidMove rotated b then rotated
  else
    match tryKicks wallKickOffsets rotated b with
    | some kicked => kicked
    | none => p

/-- Embeds `getPieceTypeValue` of index.ts (total on `Tet`, so the `default`
arm of the source `switch` is unreachable). -/
def getPieceTypeValue : Tet → Nat
  | .I => 1
  | .O => 2
  | .T => 3
  | .L => 4
  | .J => 5
  | .S => 6
  | .Z => 7

/-- One guarded cell write of `mergePieceToBoard`: place `v` at
`(boardY, boardX)` only if `0 ≤ boardY < board.length` and
`0 ≤ boardX < board[0].length` (the source checks the width of row 0). -/
def mergeCell (v : Nat) (pos : Position) (yx : Nat × Nat) (acc : Board) : Board :=
  let boardY : Int := pos.y + yx.1
  let boardX : Int := pos.x + yx.2
  if 0 ≤ boardY ∧ boardY < (acc.length : Int) ∧ 0 ≤ boardX ∧
      boardX < ((acc.headD []).length : Int) then
    acc.set boardY.toNat ((acc.getD boardY.toNat []).set boardX.toNat v)
  else acc

/-- Embeds `mergePieceToBoard` of index.ts: iterate the shape cells in source
order, writing `getPieceTypeValue type` at each occupied, in-bounds cell. -/
def mergePieceToBoard (p : Piece) (b : Board) : Board :=
  let v := getPieceTypeValue p.type
  (List.range p.shape.length).foldl
    (fun acc y =>
      (List.range ((p.shape.getD y []).length)).foldl
        (fun acc2 x =>
          if (p.shape.getD y []).getD x 0 ≠ 0 then mergeCell v p.position (y, x) acc2
          else acc2)
        acc)
    b

/-- Embeds `Array(BOARD_WIDTH).fill(0)`: the empty row inserted at the top for
each cleared line. -/
def zeroRow : Row := List.replicate BOARD_WIDTH 0

/-- Embeds `newBoard[y].every(cell => cell !== 0)`: a row is complete iff every
cell is non-zero. -/
def isCompleteRow (r : Row) : Bool := r.all (fun c => c ≠ 0)

/-- The body of a clear step in `clearLines`: rows `1..y` receive rows
`0..y-1` and row 0 becomes empty, i.e. the board becomes
`zeroRow :: (take y ++ drop (y+1))`. -/
def shiftDownAt (b : Board) (y : Nat) : Board :=
  zeroRow :: (b.take y ++ b.drop (y + 1))

/-- The scan loop of `clearLines`: `r` is the number of rows still to
check (the source's `y` is `r - 1`); after clearing a row the source
stays on the same index (`y++` then the loop's `y--`), modelled by
recursing with the same `r`. `fuel` bounds the iteration count; each
iteration either decreases `r` or removes one complete row, so
`r + (number of complete rows) + 1` iterations always suffice. -/
def clearLoop : Nat → Nat → Board → Board × Nat
  | 0, _, b => (b, 0)
  | _ + 1, 0, b => (b, 0)
  | fuel + 1, r + 1, b =>
      if isCompleteRow (b.getD r []) then
        let res := clearLoop fuel (r + 1) (shiftDownAt b r)
        (res.1, res.2 + 1)
      else clearLoop fuel (r + 1 - 1) b

/-- Embeds `clearLines` of index.ts: scan rows `BOARD_HEIGHT-1 .. 0`. Fuel 50
exceeds the maximal `20 + 20` iterations possible on the 20-row boards
the theorems quantify over. -/
def clearLines (b : Board) : Board × Nat :=
  clearLoop 50 BOARD_HEIGHT b

/-- Embeds `createGarbageLine` of index.ts, with the `Math.floor(Math.random()
* BOARD_WIDTH)` hole column passed explicitly: value 8 everywhere except
a 0 at the hole column. -/
def createGarbageLine (hole : Nat) : Row :=
  (List.range BOARD_WIDTH).map fun i => if i = hole then 0 else 8

/-- Embeds `addGarbageLines` of index.ts, with the random hole columns passed
as a stream: `splice(0, lineCount)` drops the top `lineCount` rows, then
`lineCount` fresh garbage lines are appended at the bottom. -/
def addGarbageLines (b : Board) (lineCount : Nat) (holes : Nat → Nat) : Board :=
  b.drop lineCount ++ (List.range lineCount).map fun i => createGarbageLine (holes i)

/-! ### The 7-bag randomizer (`generatePieceBag`, `getNextPiece`) -/

/-- The initial `pieces` array of `generatePieceBag`. -/
def allTets : List Tet := [.I, .O, .T, .L, .J, .S, .Z]

/-- The destructuring swap `[pieces[i], pieces[j]] = [pieces[j],
pieces[i]]` on a list (in-range in the source, since `j ≤ i < length`). -/
def listSwap (l : List Tet) (i j : Nat) : List Tet :=
  (l.set i (l.getD j .I)).set j (l.getD i .I)

/-- The Fisher-Yates loop of `generatePieceBag`: `i` runs from
`length - 1` down to 1, swapping index `i` with index `rand i`, where
`rand i` models `Math.floor(Math.random() * (i + 1))` (so `rand i ≤ i`). -/
def fyLoop (rand : Nat → Nat) : Nat → List Tet → List Tet
  | 0, l => l
  | i + 1, l => fyLoop rand i (listSwap l (i + 1) (rand (i + 1)))

/-- Embeds `generatePieceBag` of index.ts, with the random draws passed as a
stream `rand`. -/
def generatePieceBag (rand : Nat → Nat) : List Tet :=
  fyLoop rand (allTets.length - 1) allTets

/-- Returns `true` iff the list holds each of the 7 kinds exactly once
(the property the spec calls bag fairness). -/
def isFullBag (l : List Tet) : Bool :=
  l.length = 7 && allTets.all fun t => l.count t = 1

/-- The queue update of `getNextPiece` restricted to the piece type:
refill by appending a fresh bag when `queue.length ≤ 1`, then pop the
head. `bags k` is the `k`-th bag `generatePieceBag` would return; the
`[]` arm is unreachable when every bag is non-empty (in the source an
empty destructuring would yield `undefined`). Returns the popped type,
the remaining queue and the next bag index. -/
def popQueue (bags : Nat → List Tet) (q : List Tet) (k : Nat) :
    Tet × List Tet × Nat :=
  let qk : List Tet × Nat := if q.length ≤ 1 then (q ++ bags k, k + 1) else (q, k)
  match qk.1 with
  | [] => (.I, [], qk.2)
  | t :: rest => (t, rest, qk.2)

/-- The sequence of the first `n` piece types spawned by iterating
`getNextPiece` (equivalently `spawnPiece`) from queue `q`, drawing
refill bags `bags k, bags (k+1), ...`. -/
def spawnSeq (bags : Nat → List Tet) : Nat → List Tet → Nat → List Tet
  | 0, _, _ => []
  | n + 1, q, k =>
      let (t, rest, k') := popQueue bags q k
      t :: spawnSeq bags n rest k'

/-- Concatenation of bags `k, k+1, ..., k+m-1`. -/
def flattenBags (bags : Nat → List Tet) : Nat → Nat → List Tet
  | _, 0 => []
  | k, m + 1 => bags k ++ flattenBags bags (k + 1) m

/-! ### Scoring, speed and garbage tables (types.ts, RoomManager.ts) -/

/-- The `SCORE_TABLE` constant of types.ts (declared with comment
"Standard Tetris scoring system / Points awarded per number of lines
cleared, multiplied by level", but never read by the implementation). -/
def SCORE_TABLE : Nat → Nat
  | 1 => 100
  | 2 => 300
  | 3 => 500
  | 4 => 800
  | _ => 0

/-- Embeds `GameManager.getScoreMultiplier` of types.ts: the multiplier the
implementation actually awards. -/
def getScoreMultiplier : Nat → Nat
  | 1 => 40
  | 2 => 100
  | 3 => 300
  | 4 => 1200
  | _ => 0

/-- The score increment of `handlePieceLanding` for `linesCleared > 0`
at pre-landing level `level`: `getScoreMultiplier(linesCleared) *
(level + 1)`. -/
def scoreGain (linesCleared level : Nat) : Nat :=
  getScoreMultiplier linesCleared * (level + 1)

def LINES_PER_LEVEL : Nat := 10

/-- The `SPEED_CURVE` table of types.ts. -/
def SPEED_CURVE : List Nat :=
  [800, 717, 633, 550, 467, 383, 300, 217, 133, 100, 83, 83, 83, 67, 67, 67,
   50, 50, 50, 33, 33]

/-- Embeds `GameManager.getDropInterval` of types.ts. -/
def getDropInterval (level : Nat) : Nat :=
  SPEED_CURVE.getD (min level (SPEED_CURVE.length - 1)) 0

/-- Embeds `RoomManager.calculateGarbageLines`: garbage lines to send per lines
cleared. -/
def calculateGarbageLines : Nat → Nat
  | 1 => 0
  | 2 => 1
  | 3 => 2
  | 4 => 4
  | _ => 0

/-- The garbage count each playing opponent actually receives after a
landing that clears `linesCleared` lines: `handlePieceLanding` calls
`sendGarbageToOpponents` with `linesCleared - 1` only when
`linesCleared > 1`, and `sendGarbageToOpponents` applies
`calculateGarbageLines` to that argument. -/
def garbageSentOnLanding (linesCleared : Nat) : Nat :=
  if linesCleared > 1 then calculateGarbageLines (linesCleared - 1) else 0

/-! ### The per-session game state machine (types.ts `GameManager`) -/

/-- Embeds `GameStatus` of types.ts. -/
inductive GameStatus where
  | playing | paused | gameOver
deriving DecidableEq, Repr

/-- The score-bearing fields of `Player` in types.ts. -/
structure Player where
  score : Nat
  level : Nat
  lines : Nat
deriving DecidableEq, Repr

/-- The gameplay fields of `GameState` in types.ts. `bagIdx` is the
embedding's index into the stream of random bags (it stands for the
state of `Math.random`, not for a source field). -/
structure GameState where
  status : GameStatus
  board : Board
  currentPiece : Option Piece
  nextPiece : Option Piece
  heldPiece : Option Piece
  canHold : Bool
  pieceQueue : List Tet
  player : Player
  dropInterval : Nat
  bagIdx : Nat
deriving DecidableEq, Repr

/-- The environment of random draws: `bags k` is the `k`-th bag
`generatePieceBag` returns. -/
structure Env where
  bags : Nat → List Tet

/-- Embeds `PlayerAction` of types.ts. -/
inductive PlayerAction where
  | moveLeft | moveRight | moveDown | rotate | drop | hold
deriving DecidableEq, Repr

/-- Embeds `getNextPiece` of index.ts (also `spawnPiece`): pop a type from the
queue (refilling first when `length ≤ 1`) and build its piece. -/
def getNextPiece (env : Env) (q : List Tet) (k : Nat) :
    Piece × List Tet × Nat :=
  let (t, rest, k') := popQueue env.bags q k
  (createPiece t, rest, k')

/-- Embeds `holdPiece` of index.ts: returns (newCurrentPiece, newHeldPiece,
updatedQueue, bag index). The held slot always receives a fresh
spawn-anchored piece of the current type; with a piece already held the
current piece is replaced by a spawn-anchored piece of the held type and
the queue is untouched, otherwise the next piece is popped. -/
def holdPiece (env : Env) (cur : Piece) (held : Option Piece)
    (q : List Tet) (k : Nat) : Piece × Piece × List Tet × Nat :=
  let newHeld := createPiece cur.type
  match held with
  | some hp => (createPiece hp.type, newHeld, q, k)
  | none =>
      let (np, q', k') := getNextPiece env q k
      (np, newHeld, q', k')

/-- Embeds `GameManager.hardDropPiece` of types.ts: move down until the next
step collides. The source loop is unbounded; `fuel = 40` exceeds any
possible descent on a 20-row board (`isValidMove` confines every
occupied cell to `y < 20`). -/
def hardDropPiece (fuel : Nat) (p : Piece) (b : Board) : Piece :=
  match fuel with
  | 0 => p
  | fuel + 1 =>
      let np := movePiece p 0 1
      if isValidMove np b then hardDropPiece fuel np b else p

/-- Embeds `GameManager.checkGameOver` of types.ts, as a state transformer: set
`game_over` when the (fresh) current piece is in collision. -/
def checkGameOver (gs : GameState) : GameState :=
  match gs.currentPiece with
  | none => gs
  | some cp =>
      if ¬ isValidMove cp gs.board then { gs with status := .gameOver } else gs

/-- Embeds `GameManager.handlePieceLanding` of types.ts, restricted to the
landing player's own session (the garbage it sends to opponents is the
separate `garbageSentOnLanding` / `receiveGarbage` pipeline): merge the
current piece, clear lines, award score/lines/level (and the new drop
interval via `updateGameSpeed`), promote the preview piece to current,
spawn a new preview, re-enable hold, then check game over. -/
def handlePieceLanding (env : Env) (gs : GameState) : GameState :=
  match gs.currentPiece with
  | none => gs
  | some cur =>
      let b1 := mergePieceToBoard cur gs.board
      let (b2, linesCleared) := clearLines b1
      let p := gs.player
      let newLines := p.lines + linesCleared
      let newLevel := newLines / LINES_PER_LEVEL
      let leveledUp := linesCleared > 0 ∧ newLevel > p.level
      let p' : Player :=
        if linesCleared > 0 then
          { score := p.score + scoreGain linesCleared p.level
            lines := newLines
            level := if newLevel > p.level then newLevel else p.level }
        else p
      let (np, q', k') := getNextPiece env gs.pieceQueue gs.bagIdx
      let gs' : GameState :=
        { gs with
            board := b2
            player := p'
            currentPiece := gs.nextPiece
            nextPiece := some np
            pieceQueue := q'
            bagIdx := k'
            canHold := true
            dropInterval := if leveledUp then getDropInterval newLevel else gs.dropInterval }
      checkGameOver gs'

/-- The shared tail of the movement cases of `handlePlayerAction`: adopt
`updated` if valid; on a `move_down` also land when the next step would
collide; an invalid `move_down` lands immediately. -/
def applyMoveResult (env : Env) (gs : GameState) (updated : Piece)
    (isDown : Bool) : GameState :=
  if isValidMove updated gs.board then
    let gs' := { gs with currentPiece := some updated }
    if isDown ∧ ¬ isValidMove (movePiece updated 0 1) gs'.board then
      handlePieceLanding env gs'
    else gs'
  else if isDown then handlePieceLanding env gs
  else gs

/-- Embeds `GameManager.handlePlayerAction` of types.ts: ignore everything
unless the session is playing and has a current piece; the `hold` case
additionally replaces the preview piece from the queue. -/
def handlePlayerAction (env : Env) (gs : GameState) (a : PlayerAction) :
    GameState :=
  if gs.status ≠ .playing then gs
  else
    match gs.currentPiece with
    | none => gs
    | some cur =>
        match a with
        | .moveLeft => applyMoveResult env gs (movePiece cur (-1) 0) false
        | .moveRight => applyMoveResult env gs (movePiece cur 1 0) false
        | .moveDown => applyMoveResult env gs (movePiece cur 0 1) true
        | .rotate => applyMoveResult env gs (rotatePiece cur gs.board) false
        | .drop =>
            let dropped := hardDropPiece 40 cur gs.board
            if isValidMove dropped gs.board then
              handlePieceLanding env { gs with currentPiece := some dropped }
            else gs
        | .hold =>
            if gs.canHold then
              let (newCur, newHeld, q1, k1) :=
                holdPiece env cur gs.heldPiece gs.pieceQueue gs.bagIdx
              let gs' :=
                { gs with
                    currentPiece := some newCur
                    heldPiece := some newHeld
                    canHold := false
                    pieceQueue := q1
                    bagIdx := k1 }
              let (np, q2, k2) := getNextPiece env q1 k1
              { gs' with nextPiece := some np, pieceQueue := q2, bagIdx := k2 }
            else gs

/-- Embeds `GameManager.gameLoopTick` followed by `tryMoveDown` of types.ts:
one gravity tick. -/
def gameLoopTick (env : Env) (gs : GameState) : GameState :=
  if gs.status ≠ .playing then gs
  else
    match gs.currentPiece with
    | none => gs
    | some cur =>
        let np := movePiece cur 0 1
        if isValidMove np gs.board then { gs with currentPiece := some np }
        else handlePieceLanding env gs

/-- The per-opponent body of `RoomManager.sendGarbageToOpponents`: a
session whose status is not `playing` is skipped; otherwise `g` garbage
lines are added to its board. -/
def receiveGarbage (gs : GameState) (g : Nat) (holes : Nat → Nat) : GameState :=
  if gs.status ≠ .playing then gs
  else { gs with board := addGarbageLines gs.board g holes }

/-- The three kinds of events that can reach a session after creation. -/
inductive GameEvent where
  | act (a : PlayerAction)
  | tick
  | garbage (g : Nat) (holes : Nat → Nat)

/-- Apply one event to a session. -/
def applyEvent (env : Env) (gs : GameState) : GameEvent → GameState
  | .act a => handlePlayerAction env gs a
  | .tick => gameLoopTick env gs
  | .garbage g holes => receiveGarbage gs g holes

/-- Apply a sequence of events to a session. -/
def applyEvents (env : Env) (gs : GameState) (es : List GameEvent) : GameState :=
  es.foldl (applyEvent env) gs

/-! ### Spec-side definitions (for comparison with the embedded code) -/

/-- Modelled from the spec's words for claim C3 (not from the source):
"true iff every occupied cell of the piece's mask maps to a board cell
that is within `[0,width)` horizontally, `< height` vertically (cells
above row 0 are permitted — they represent the spawn buffer), and — for
cells with vertical index ≥ 0 — the target board cell is empty". -/
def specValidMove (p : Piece) (b : Board) : Bool :=
  (List.range p.shape.length).all fun y =>
    (List.range ((p.shape.getD y []).length)).all fun x =>
      if (p.shape.getD y []).getD x 0 = 0 then true
      else
        let boardX : Int := p.position.x + x
        let boardY : Int := p.position.y + y
        decide (0 ≤ boardX) && decide (boardX < (BOARD_WIDTH : Int)) &&
        decide (boardY < (BOARD_HEIGHT : Int)) &&
        (decide (boardY < 0) || decide ((b.getD boardY.toNat []).getD boardX.toNat 0 = 0))

/-- The amended hold behaviour for claim C4, following the amended
claim's words: with `canHold` false the action is a no-op; otherwise the
held slot becomes a spawn-anchored piece of the current kind, the new
current piece is a spawn-anchored piece of the head of the queue (no
held piece) or of the held kind (swap), and in both cases one further
queue element is popped to become the new preview piece, discarding the
old preview. Stated for queues of length ≥ 3, where no refill occurs. -/
def holdActionSpec (gs : GameState) (cur : Piece) (t1 t2 : Tet)
    (restAfterTwo : List Tet) : GameState :=
  if gs.canHold then
    match gs.heldPiece with
    | none =>
        { gs with
            currentPiece := some (createPiece t1)
            heldPiece := some (createPiece cur.type)
            canHold := false
            nextPiece := some (createPiece t2)
            pieceQueue := restAfterTwo }
    | some hp =>
        { gs with
            currentPiece := some (createPiece hp.type)
            heldPiece := some (createPiece cur.type)
            canHold := false
            nextPiece := some (createPiece t1)
            pieceQueue := t2 :: restAfterTwo }
  else gs

/-- The rotation candidates in the claim's priority order: the rotated
piece at its unmodified position, then the five wall-kicked variants
(left 1, right 1, up 1, left 2, right 2). -/
def rotationCandidates (p : Piece) : List Piece :=
  let rotated : Piece :=
    { p with shape := rotateMatrix p.shape, rotation := (p.rotation + 1) % 4 }
  rotated :: wallKickOffsets.map (kickPiece rotated)

/-- Cell-value soundness: every cell is at most 8 (0 empty, 1-7 piece
ids, 8 the garbage sentinel). -/
def boardOK (b : Board) : Bool :=
  b.all fun row => row.all fun c => c ≤ 8

/-- Boards reachable from the empty board by the three board-writing
operations (claim C10). -/
inductive Reachable : Board → Prop where
  | empty : Reachable createEmptyBoard
  | merge (p : Piece) {b : Board} : Reachable b → Reachable (mergePieceToBoard p b)
  | clear {b : Board} : Reachable b → Reachable (clearLines b).1
  | garbage (n : Nat) (holes : Nat → Nat) {b : Board} :
      Reachable b → Reachable (addGarbageLines b n holes)

/-- A fixed environment for concrete instances: every bag is the
unshuffled kind list. -/
def envExample : Env := ⟨fun _ => allTets⟩

/-- A concrete game-over session, used to instantiate theorems. -/
def gsOverExample : GameState :=
  { status := .gameOver
    board := createEmptyBoard
    currentPiece := some (createPiece .T)
    nextPiece := some (createPiece .O)
    heldPiece := none
    canHold := true
    pieceQueue := [.L, .J, .S]
    player := { score := 120, level := 1, lines := 12 }
    dropInterval := 717
    bagIdx := 2 }

/-- A concrete playing session with an empty hold slot, used to
instantiate theorems. -/
def gsHoldExample : GameState :=
  { status := .playing
    board := createEmptyBoard
    currentPiece := some (createPiece .I)
    nextPiece := some (createPiece .O)
    heldPiece := none
    canHold := true
    pieceQueue := [.T, .L, .J]
    player := { score := 0, level := 0, lines := 0 }
    dropInterval := 800
    bagIdx := 1 }

/-- A concrete 20×10 board whose rows 5, 10 and 19 are complete and all
other rows partial (the spec's `clearLines` example). -/
def clearExampleBoard : Board :=
  (List.range BOARD_HEIGHT).map fun y =>
    if y = 5 ∨ y = 10 ∨ y = 19 then List.replicate BOARD_WIDTH 2
    else (List.range BOARD_WIDTH).map fun x => if x = y % BOARD_WIDTH then 0 else 1

/-- A fixed hole-column stream for concrete instances. -/
def holesExample : Nat → Nat := fun _ => 3

/-! ## Theorems -/

/-- C1: the composed garbage pipeline. `handlePieceLanding` passes
`linesCleared - 1` (for `linesCleared > 1`) to `sendGarbageToOpponents`,
whose `lineCount` parameter is documented as "The number of lines
cleared" and which applies `calculateGarbageLines` to it again. The
attack table itself is `{1:0, 2:1, 3:2, 4:4}` exactly as the spec says,
but the double application makes a 2-line clear send 0 lines (spec: 1),
a 3-line clear send 1 (spec: 2) and a 4-line clear send 2 (spec: 4). -/
theorem garbage_pipeline_eval :
    calculateGarbageLines 2 = 1 ∧ calculateGarbageLines 3 = 2 ∧
    calculateGarbageLines 4 = 4 ∧
    garbageSentOnLanding 0 = 0 ∧ garbageSentOnLanding 1 = 0 ∧
    garbageSentOnLanding 2 = 0 ∧ garbageSentOnLanding 3 = 1 ∧
    garbageSentOnLanding 4 = 2 := by decide

/-- C2: the score actually awarded on a 1-line clear at level 0 is
`getScoreMultiplier 1 * (0 + 1) = 40`, not the `SCORE_TABLE` value 100
the file itself declares (and the spec states); the implementation's
multipliers disagree with the declared table at 1, 2, 3 and 4 lines,
while a 0-line landing indeed awards nothing. -/
theorem score_table_eval :
    scoreGain 1 0 = 40 ∧ SCORE_TABLE 1 = 100 ∧
    getScoreMultiplier 1 ≠ SCORE_TABLE 1 ∧
    getScoreMultiplier 2 ≠ SCORE_TABLE 2 ∧
    getScoreMultiplier 3 ≠ SCORE_TABLE 3 ∧
    getScoreMultiplier 4 ≠ SCORE_TABLE 4 ∧
    scoreGain 0 7 = 0 := by decide

theorem applyEvent_of_gameOver (env : Env) (gs : GameState) (e : GameEvent)
    (h : gs.status = .gameOver) : applyEvent env gs e = gs := by
  cases e with
  | act a => simp [applyEvent, handlePlayerAction, h]
  | tick => simp [applyEvent, gameLoopTick, h]
  | garbage g holes => simp [applyEvent, receiveGarbage, h]

/-- C8: once a session's status is `game_over`, every subsequent player
action, gravity tick or incoming garbage event leaves the whole session
state (board, score and piece state included) unchanged. -/
theorem gameOver_terminal (env : Env) (gs : GameState) (es : List GameEvent)
    (h : gs.status = .gameOver) : applyEvents env gs es = gs := by
  induction es with
  | nil => rfl
  | cons e es ih =>
      unfold applyEvents at ih ⊢
      rw [List.foldl_cons, applyEvent_of_gameOver env gs e h]
      exact ih

/-- Witness for C8 at a concrete game-over session and event list. -/
theorem gameOver_terminal_witness :
    gsOverExample.status = .gameOver ∧
    applyEvents envExample gsOverExample
      [.act .hold, .act .drop, .tick, .garbage 2 (fun _ => 0)] = gsOverExample :=
  ⟨rfl, gameOver_terminal envExample gsOverExample _ rfl⟩

theorem tryKicks_eq_find (offs : List (Int × Int)) (rp : Piece) (b : Board) :
    tryKicks offs rp b = (offs.map (kickPiece rp)).find? (fun c => isValidMove c b) := by
  induction offs with
  | nil => rfl
  | cons o rest ih =>
      by_cases h : isValidMove (kickPiece rp o) b
      · simp [tryKicks, List.find?, h]
      · simp [tryKicks, List.find?, h, ih]

theorem tryKicks_shape (offs : List (Int × Int)) (rp : Piece) (b : Board)
    (k : Piece) (h : tryKicks offs rp b = some k) : k.shape = rp.shape := by
  induction offs with
  | nil => simp [tryKicks] at h
  | cons o rest ih =>
      by_cases hv : isValidMove (kickPiece rp o) b
      · simp [tryKicks, hv] at h
        subst h
        rfl
      · simp [tryKicks, hv] at h
        exact ih h

theorem rotatePiece_eq_getD (p : Piece) (b : Board) :
    rotatePiece p b = ((rotationCandidates p).find? (fun c => isValidMove c b)).getD p := by
  simp only [rotatePiece, rotationCandidates]
  by_cases hv : isValidMove
      { p with shape := rotateMatrix p.shape, rotation := (p.rotation + 1) % 4 } b
  · rw [if_pos hv, List.find?_cons_of_pos (p := fun c => isValidMove c b) _ hv]
    rfl
  · rw [if_neg hv,
      List.find?_cons_of_neg (p := fun c => isValidMove c b) _ (by simpa using hv),
      tryKicks_eq_find]
    cases hfind : (wallKickOffsets.map
        (kickPiece { p with shape := rotateMatrix p.shape,
                            rotation := (p.rotation + 1) % 4 })).find?
        (fun c => isValidMove c b) with
    | none => rfl
    | some k => rfl

/-- C7: `rotatePiece` returns the first valid candidate among the
rotated piece (rotation `(rotation+1) % 4`) followed by the wall-kicked
variants in order left 1, right 1, up 1, left 2, right 2, and the
original piece if none validates; rotating a square-shaped piece never
changes its occupancy mask. -/
theorem rotatePiece_spec (p : Piece) (b : Board) :
    rotatePiece p b = ((rotationCandidates p).find? (fun c => isValidMove c b)).getD p ∧
    (p.shape = [[1, 1], [1, 1]] → (rotatePiece p b).shape = p.shape) := by
  refine ⟨rotatePiece_eq_getD p b, fun hO => ?_⟩
  have hrot : rotateMatrix p.shape = p.shape := by rw [hO]; rfl
  rw [rotatePiece_eq_getD]
  cases hfind : (rotationCandidates p).find? (fun c => isValidMove c b) with
  | none => rfl
  | some k =>
      have hk : k ∈ rotationCandidates p := List.mem_of_find?_eq_some hfind
      have hks : k.shape = rotateMatrix p.shape := by
        simp only [rotationCandidates, List.mem_cons, List.mem_map] at hk
        rcases hk with h1 | ⟨o, _, rfl⟩
        · rw [h1]
        · rfl
      simp only [Option.getD_some, hks, hrot]

/-- Witness for C7 at the square piece on the empty board. -/
theorem rotatePiece_spec_witness :
    rotatePiece (createPiece .O) createEmptyBoard =
      ((rotationCandidates (createPiece .O)).find?
        (fun c => isValidMove c createEmptyBoard)).getD (createPiece .O) ∧
    ((createPiece .O).shape = [[1, 1], [1, 1]] →
      (rotatePiece (createPiece .O) createEmptyBoard).shape = (createPiece .O).shape) :=
  rotatePiece_spec (createPiece .O) createEmptyBoard

/-- C3 counterexample: an O piece whose occupied cells sit at vertical
indices -1 and 0 over an empty board. The spec-worded predicate (cells
above row 0 permitted) accepts it, but `isValidMove` rejects any
occupied cell with `boardY < 0`. -/
theorem isValidMove_spawnbuffer_counterexample :
    specValidMove { createPiece .O with position := ⟨4, -1⟩ } createEmptyBoard = true ∧
    isValidMove { createPiece .O with position := ⟨4, -1⟩ } createEmptyBoard = false := by
  decide

/-- C3 (amended): `isValidMove` is true iff every occupied cell of the
mask lands within `[0,width)` horizontally AND `[0,height)` vertically
(cells above row 0 are rejected, not permitted) on an empty board cell. -/
theorem isValidMove_iff (p : Piece) (b : Board) :
    isValidMove p b = true ↔
      ∀ y, y < p.shape.length → ∀ x, x < (p.shape.getD y []).length →
        (p.shape.getD y []).getD x 0 ≠ 0 →
          0 ≤ p.position.x + (x : Int) ∧ p.position.x + (x : Int) < (BOARD_WIDTH : Int) ∧
          0 ≤ p.position.y + (y : Int) ∧ p.position.y + (y : Int) < (BOARD_HEIGHT : Int) ∧
          (b.getD (p.position.y + (y : Int)).toNat []).getD
            (p.position.x + (x : Int)).toNat 0 = 0 := by
  unfold isValidMove
  simp only [List.all_eq_true, List.mem_range]
  constructor
  · intro h y hy x hx hocc
    have hyx := h y hy x hx
    rw [if_neg hocc] at hyx
    simp only [decide_eq_true_eq] at hyx
    push_neg at hyx
    obtain ⟨h1, h2, h3, h4, h5⟩ := hyx
    refine ⟨by omega, by omega, by omega, by omega, ?_⟩
    by_contra hcell
    exact hcell (h5 (by omega))
  · intro h y hy x hx
    by_cases hocc : (p.shape.getD y []).getD x 0 = 0
    · rw [if_pos hocc]
    · rw [if_neg hocc]
      obtain ⟨h1, h2, h3, h4, h5⟩ := h y hy x hx hocc
      simp only [decide_eq_true_eq]
      push_neg
      exact ⟨by omega, by omega, by omega, by omega, fun _ => h5⟩

/-- Witness for C3's amended theorem at the T piece on the empty board. -/
theorem isValidMove_iff_witness :
    isValidMove (createPiece .T) createEmptyBoard = true ↔
      ∀ y, y < (createPiece .T).shape.length →
        ∀ x, x < ((createPiece .T).shape.getD y []).length →
          ((createPiece .T).shape.getD y []).getD x 0 ≠ 0 →
            0 ≤ (createPiece .T).position.x + (x : Int) ∧
            (createPiece .T).position.x + (x : Int) < (BOARD_WIDTH : Int) ∧
            0 ≤ (createPiece .T).position.y + (y : Int) ∧
            (createPiece .T).position.y + (y : Int) < (BOARD_HEIGHT : Int) ∧
            (createEmptyBoard.getD ((createPiece .T).position.y + (y : Int)).toNat []).getD
              ((createPiece .T).position.x + (x : Int)).toNat 0 = 0 :=
  isValidMove_iff (createPiece .T) createEmptyBoard

theorem garbage_line_facts : ∀ h, h < BOARD_WIDTH →
    (createGarbageLine h).count 0 = 1 ∧
    (createGarbageLine h).count 8 = BOARD_WIDTH - 1 ∧
    (createGarbageLine h).getD h 1 = 0 := by decide

/-- C6 counterexample: with `n` larger than the board height the
returned board has height `n`, not the original height (here 21 ≠ 20),
so the claim's "for every n ≥ 0" quantification fails. -/
theorem addGarbageLines_height_counterexample :
    (addGarbageLines createEmptyBoard 21 (fun _ => 0)).length ≠
      createEmptyBoard.length := by decide

/-- C6 (amended): for `n` at most the board height, `addGarbageLines`
returns a board of the original height whose first `height - n` rows are
the original rows below the removed top `n` (in order) and whose bottom
`n` rows are fresh garbage rows, each all-8 except a single 0 in its
hole column. The embedding is pure, so the input board is unchanged by
construction. -/
theorem addGarbageLines_spec (b : Board) (n : Nat) (holes : Nat → Nat)
    (hn : n ≤ b.length) (hh : ∀ i, i < n → holes i < BOARD_WIDTH) :
    (addGarbageLines b n holes).length = b.length ∧
    (addGarbageLines b n holes).take (b.length - n) = b.drop n ∧
    ∀ i, i < n →
      (addGarbageLines b n holes).getD (b.length - n + i) [] =
        createGarbageLine (holes i) ∧
      (createGarbageLine (holes i)).count 0 = 1 ∧
      (createGarbageLine (holes i)).count 8 = BOARD_WIDTH - 1 ∧
      (createGarbageLine (holes i)).getD (holes i) 1 = 0 := by
  have hdl : (b.drop n).length = b.length - n := List.length_drop n b
  refine ⟨?_, ?_, ?_⟩
  · simp only [addGarbageLines, List.length_append, List.length_drop,
      List.length_map, List.length_range]
    omega
  · rw [addGarbageLines, List.take_left' hdl]
  · intro i hi
    obtain ⟨hc0, hc8, hch⟩ := garbage_line_facts (holes i) (hh i hi)
    refine ⟨?_, hc0, hc8, hch⟩
    rw [addGarbageLines, List.getD_append_right _ _ _ _ (by rw [hdl]; omega)]
    have hsub : b.length - n + i - (b.drop n).length = i := by rw [hdl]; omega
    rw [hsub]
    have hlen : i < ((List.range n).map fun j => createGarbageLine (holes j)).length := by
      simpa using hi
    rw [List.getD_eq_getElem _ _ hlen, List.getElem_map]
    simp [List.getElem_range]

/-- Witness for C6 at the empty board, two garbage lines, hole column 3. -/
theorem addGarbageLines_spec_witness :
    2 ≤ createEmptyBoard.length ∧ (∀ i, i < 2 → holesExample i < BOARD_WIDTH) ∧
    ((addGarbageLines createEmptyBoard 2 holesExample).length = createEmptyBoard.length ∧
     (addGarbageLines createEmptyBoard 2 holesExample).take (createEmptyBoard.length - 2) =
       createEmptyBoard.drop 2 ∧
     ∀ i, i < 2 →
       (addGarbageLines createEmptyBoard 2 holesExample).getD
         (createEmptyBoard.length - 2 + i) [] = createGarbageLine (holesExample i) ∧
       (createGarbageLine (holesExample i)).count 0 = 1 ∧
       (createGarbageLine (holesExample i)).count 8 = BOARD_WIDTH - 1 ∧
       (createGarbageLine (holesExample i)).getD (holesExample i) 1 = 0) :=
  ⟨by decide, by decide,
    addGarbageLines_spec createEmptyBoard 2 holesExample (by decide) (by decide)⟩

theorem getPieceTypeValue_le (t : Tet) : getPieceTypeValue t ≤ 7 := by
  cases t <;> decide

theorem boardOK_iff (b : Board) :
    boardOK b = true ↔ ∀ row ∈ b, ∀ c ∈ row, c ≤ 8 := by
  simp [boardOK, List.all_eq_true]

theorem foldl_preserve {β : Type} (P : Board → Prop) (f : Board → β → Board)
    (hf : ∀ a x, P a → P (f a x)) :
    ∀ (l : List β) (acc : Board), P acc → P (l.foldl f acc) := by
  intro l
  induction l with
  | nil => intro acc h; exact h
  | cons x xs ih => intro acc h; exact ih _ (hf _ _ h)

theorem cells_le_getD (b : Board) (y : Nat)
    (hb : ∀ row ∈ b, ∀ c ∈ row, c ≤ 8) :
    ∀ c ∈ b.getD y [], c ≤ 8 := by
  intro c hc
  by_cases hy : y < b.length
  · rw [List.getD_eq_getElem _ _ hy] at hc
    exact hb _ (List.getElem_mem hy) c hc
  · rw [List.getD_eq_default _ _ (by omega)] at hc
    exact absurd hc (List.not_mem_nil c)

theorem mergeCell_cells_le (v : Nat) (pos : Position) (yx : Nat × Nat) (b : Board)
    (hv : v ≤ 8) (hb : ∀ row ∈ b, ∀ c ∈ row, c ≤ 8) :
    ∀ row ∈ mergeCell v pos yx b, ∀ c ∈ row, c ≤ 8 := by
  simp only [mergeCell]
  split
  · intro row hrow c hc
    rcases List.mem_or_eq_of_mem_set hrow with h | rfl
    · exact hb row h c hc
    · rcases List.mem_or_eq_of_mem_set hc with h2 | rfl
      · exact cells_le_getD b _ hb c h2
      · exact hv
  · exact hb

theorem mergePieceToBoard_cells_le (p : Piece) (b : Board)
    (hb : ∀ row ∈ b, ∀ c ∈ row, c ≤ 8) :
    ∀ row ∈ mergePieceToBoard p b, ∀ c ∈ row, c ≤ 8 := by
  unfold mergePieceToBoard
  apply foldl_preserve (fun a => ∀ row ∈ a, ∀ c ∈ row, c ≤ 8)
  · intro acc y hacc
    apply foldl_preserve (fun a => ∀ row ∈ a, ∀ c ∈ row, c ≤ 8)
    · intro acc2 x hacc2
      split
      · exact mergeCell_cells_le _ _ _ _
          (le_trans (getPieceTypeValue_le p.type) (by omega)) hacc2
      · exact hacc2
    · exact hacc
  · exact hb

theorem shiftDownAt_cells_le (b : Board) (y : Nat)
    (hb : ∀ row ∈ b, ∀ c ∈ row, c ≤ 8) :
    ∀ row ∈ shiftDownAt b y, ∀ c ∈ row, c ≤ 8 := by
  intro row hrow
  rcases List.mem_cons.mp hrow with rfl | h
  · intro c hc
    simp only [zeroRow, List.mem_replicate] at hc
    simp [hc.2]
  · rcases List.mem_append.mp h with h2 | h2
    · exact hb row (List.mem_of_mem_take h2)
    · exact hb row (List.mem_of_mem_drop h2)

theorem clearLoop_cells_le (fuel : Nat) :
    ∀ (r : Nat) (b : Board), (∀ row ∈ b, ∀ c ∈ row, c ≤ 8) →
      ∀ row ∈ (clearLoop fuel r b).1, ∀ c ∈ row, c ≤ 8 := by
  induction fuel with
  | zero => intro r b hb; simpa [clearLoop] using hb
  | succ fuel ih =>
      intro r b hb
      cases r with
      | zero => simpa [clearLoop] using hb
      | succ r' =>
          rw [clearLoop]
          split
          · exact ih (r' + 1) (shiftDownAt b r') (shiftDownAt_cells_le b r' hb)
          · exact ih r' b hb

theorem createGarbageLine_cells_le (h : Nat) :
    ∀ c ∈ createGarbageLine h, c ≤ 8 := by
  intro c hc
  simp only [createGarbageLine, List.mem_map, List.mem_range] at hc
  obtain ⟨i, _, rfl⟩ := hc
  by_cases h2 : i = h <;> simp [h2]

theorem addGarbageLines_cells_le (b : Board) (n : Nat) (holes : Nat → Nat)
    (hb : ∀ row ∈ b, ∀ c ∈ row, c ≤ 8) :
    ∀ row ∈ addGarbageLines b n holes, ∀ c ∈ row, c ≤ 8 := by
  intro row hrow
  rcases List.mem_append.mp hrow with h | h
  · exact hb row (List.mem_of_mem_drop h)
  · rw [List.mem_map] at h
    obtain ⟨i, _, rfl⟩ := h
    exact createGarbageLine_cells_le (holes i)

/-- C10: every board reachable from the empty board by merging pieces,
clearing lines and receiving garbage has all cells in `{0,…,8}`: merges
write only the piece ids 1-7, garbage rows hold only 0 and the sentinel
8, and line clears insert only all-zero rows. -/
theorem reachable_boardOK (b : Board) (h : Reachable b) : boardOK b = true := by
  rw [boardOK_iff]
  induction h with
  | empty =>
      intro row hrow c hc
      simp only [createEmptyBoard, List.mem_replicate] at hrow
      rw [hrow.2, List.mem_replicate] at hc
      simp [hc.2]
  | merge p _ ih => exact mergePieceToBoard_cells_le p _ ih
  | clear _ ih => exact clearLoop_cells_le 50 BOARD_HEIGHT _ ih
  | garbage n holes _ ih => exact addGarbageLines_cells_le _ n holes ih

/-- Witness for C10 on a board reached by a merge, a clear and a
garbage injection. -/
theorem reachable_boardOK_witness :
    boardOK (addGarbageLines
      (clearLines (mergePieceToBoard (createPiece .T) createEmptyBoard)).1
      2 holesExample) = true :=
  reachable_boardOK _
    (Reachable.garbage 2 holesExample
      (Reachable.clear (Reachable.merge (createPiece .T) Reachable.empty)))

/-- C4 counterexample: a playing session with `canHold` true, nothing
held, preview piece O and queue `[T, L, J]`. The claim says the new
current piece is the previous preview (O); the code instead pops the
queue head (T) and discards the old preview. -/
theorem hold_counterexample :
    gsHoldExample.status = .playing ∧
    gsHoldExample.canHold = true ∧
    gsHoldExample.heldPiece = none ∧
    gsHoldExample.nextPiece = some (createPiece .O) ∧
    (handlePlayerAction envExample gsHoldExample .hold).currentPiece =
      some (createPiece .T) ∧
    (handlePlayerAction envExample gsHoldExample .hold).currentPiece ≠
      gsHoldExample.nextPiece := by decide

/-- C4 (amended): on a playing session with a current piece and a queue
of length ≥ 3 (so no refill interferes), a hold action with `canHold`
true sets the held slot to a spawn-anchored piece of the current kind
and `canHold` to false; with no piece held the new current piece is a
spawn-anchored piece of the queue head (the previous preview piece is
discarded) and the preview becomes the second queue element; with a
piece held the current piece becomes a spawn-anchored piece of the held
kind and the preview is nevertheless replaced by the queue head,
consuming one queue element. With `canHold` false the action is a
no-op. -/
theorem handleHold_spec (env : Env) (gs : GameState) (cur : Piece)
    (t1 t2 : Tet) (rest2 : List Tet)
    (h1 : gs.status = .playing) (h2 : gs.currentPiece = some cur)
    (h3 : gs.pieceQueue = t1 :: t2 :: rest2) (h4 : rest2 ≠ []) :
    handlePlayerAction env gs .hold = holdActionSpec gs cur t1 t2 rest2 := by
  have hq1 : ¬((t1 :: t2 :: rest2).length ≤ 1) := by
    simp only [List.length_cons]
    omega
  have hq2 : ¬((t2 :: rest2).length ≤ 1) := by
    have := List.length_pos.mpr h4
    simp only [List.length_cons]
    omega
  simp only [handlePlayerAction, h1, h2]
  cases hch : gs.canHold with
  | false =>
      simp [holdActionSpec, hch]
  | true =>
      cases hheld : gs.heldPiece with
      | none =>
          simp [holdActionSpec, hch, hheld, holdPiece, getNextPiece, popQueue,
            h1, h3, h4, hq1, hq2]
      | some hp =>
          simp [holdActionSpec, hch, hheld, holdPiece, getNextPiece, popQueue,
            h1, h3, h4, hq1, hq2]

/-- Witness for C4's amended theorem at a concrete session. -/
theorem handleHold_spec_witness :
    gsHoldExample.status = .playing ∧
    gsHoldExample.currentPiece = some (createPiece .I) ∧
    gsHoldExample.pieceQueue = [.T, .L, .J] ∧
    ([Tet.J] ≠ ([] : List Tet)) ∧
    handlePlayerAction envExample gsHoldExample .hold =
      holdActionSpec gsHoldExample (createPiece .I) .T .L [.J] :=
  ⟨rfl, rfl, rfl, by decide,
    handleHold_spec envExample gsHoldExample (createPiece .I) .T .L [.J]
      rfl rfl rfl (by decide)⟩

theorem length_listSwap (l : List Tet) (i j : Nat) :
    (listSwap l i j).length = l.length := by
  simp [listSwap]

theorem count_listSwap (l : List Tet) (i j : Nat) (hi : i < l.length)
    (hj : j < l.length) (t : Tet) :
    (listSwap l i j).count t = l.count t := by
  have hgi : l.getD i .I = l[i] := List.getD_eq_getElem _ _ hi
  have hgj : l.getD j .I = l[j] := List.getD_eq_getElem _ _ hj
  have hlen : j < (l.set i l[j]).length := by simpa using hj
  have hset : (l.set i l[j])[j] = l[j] := by
    rw [List.getElem_set]
    split <;> rfl
  have hmem_i : l[i] = t → 1 ≤ l.count t := fun h =>
    List.count_pos_iff.mpr (h ▸ List.getElem_mem hi)
  unfold listSwap
  rw [hgi, hgj, List.count_set _ _ _ _ hlen, List.count_set _ _ _ _ hi, hset]
  simp only [beq_iff_eq]
  by_cases h1 : l[i] = t
  · have hc := hmem_i h1
    by_cases h2 : l[j] = t <;>
      simp only [h1, h2, if_true, if_false, ite_true, ite_false] <;> omega
  · by_cases h2 : l[j] = t <;>
      simp only [h1, h2, if_true, if_false, ite_true, ite_false] <;> omega

theorem length_fyLoop (rand : Nat → Nat) :
    ∀ (i : Nat) (l : List Tet), (fyLoop rand i l).length = l.length
  | 0, _ => rfl
  | i + 1, l => by rw [fyLoop, length_fyLoop rand i, length_listSwap]

theorem count_fyLoop (rand : Nat → Nat) (t : Tet) :
    ∀ (i : Nat) (l : List Tet), i < l.length → (∀ m, m ≤ i → rand m ≤ m) →
      (fyLoop rand i l).count t = l.count t := by
  intro i
  induction i with
  | zero => intro l _ _; rfl
  | succ i ih =>
      intro l hl hr
      rw [fyLoop]
      have hsw : (listSwap l (i + 1) (rand (i + 1))).length = l.length :=
        length_listSwap l (i + 1) (rand (i + 1))
      rw [ih (listSwap l (i + 1) (rand (i + 1))) (by omega)
        (fun m hm => hr m (by omega))]
      exact count_listSwap l (i + 1) (rand (i + 1)) hl
        (lt_of_le_of_lt (hr (i + 1) le_rfl) hl) t

theorem length_generatePieceBag (rand : Nat → Nat) :
    (generatePieceBag rand).length = 7 := by
  rw [generatePieceBag, length_fyLoop]
  rfl

/-- Fisher-Yates with in-range draws always yields a full bag: each of
the 7 kinds exactly once. -/
theorem generatePieceBag_full (rand : Nat → Nat) (h : ∀ i, i < 7 → rand i ≤ i) :
    isFullBag (generatePieceBag rand) = true := by
  have hcount : ∀ t, (generatePieceBag rand).count t = allTets.count t := by
    intro t
    rw [generatePieceBag]
    have h6 : allTets.length - 1 = 6 := rfl
    exact count_fyLoop rand t (allTets.length - 1) allTets (by decide)
      (fun m hm => h m (by omega))
  rw [isFullBag, Bool.and_eq_true]
  refine ⟨?_, ?_⟩
  · simp [length_generatePieceBag rand]
  · rw [List.all_eq_true]
    intro t _
    simp only [decide_eq_true_eq, hcount t]
    cases t <;> rfl

theorem flattenBags_append (bags : Nat → List Tet) (a b : Nat) :
    ∀ k, flattenBags bags k (a + b) = flattenBags bags k a ++ flattenBags bags (k + a) b := by
  induction a with
  | zero => intro k; simp [flattenBags]
  | succ a ih =>
      intro k
      have h1 : a + 1 + b = (a + b) + 1 := by omega
      rw [h1, flattenBags, flattenBags, ih (k + 1), List.append_assoc]
      have h2 : k + 1 + a = k + (a + 1) := by omega
      rw [h2]

theorem length_flattenBags (bags : Nat → List Tet)
    (hb : ∀ j, (bags j).length = 7) :
    ∀ (m k : Nat), (flattenBags bags k m).length = 7 * m := by
  intro m
  induction m with
  | zero => intro k; rfl
  | succ m ih =>
      intro k
      rw [flattenBags, List.length_append, hb k, ih (k + 1)]
      omega

theorem spawnSeq_eq_take (bags : Nat → List Tet) (hb : ∀ j, (bags j).length = 7) :
    ∀ (n : Nat) (q : List Tet) (k : Nat),
      spawnSeq bags n q k = (q ++ flattenBags bags k n).take n := by
  intro n
  induction n with
  | zero => intro q k; simp [spawnSeq]
  | succ n ih =>
      intro q k
      by_cases hq : q.length ≤ 1
      · cases hqq : q ++ bags k with
        | nil =>
            exfalso
            have := congrArg List.length hqq
            rw [List.length_append, hb k] at this
            simp at this
        | cons t rest =>
            rw [spawnSeq]
            simp only [popQueue, if_pos hq, hqq]
            rw [ih rest (k + 1), flattenBags, ← List.append_assoc, hqq]
            rfl
      · cases q with
        | nil => simp at hq
        | cons t rest =>
            have hrest : 1 ≤ rest.length := by
              simp only [List.length_cons] at hq
              omega
            rw [spawnSeq]
            simp only [popQueue, if_neg hq]
            rw [ih rest k]
            have hsplit : flattenBags bags k (n + 1) =
                flattenBags bags k n ++ flattenBags bags (k + n) 1 :=
              flattenBags_append bags n 1 k
            rw [List.cons_append, List.take_succ_cons, hsplit, ← List.append_assoc]
            have hX : n ≤ (rest ++ flattenBags bags k n).length := by
              rw [List.length_append, length_flattenBags bags hb]
              omega
            conv_rhs => rw [List.take_append_of_le_length hX]

theorem spawnSeq_blocks (bags : Nat → List Tet) (hb : ∀ j, (bags j).length = 7)
    (m k : Nat) (hk : k < m) :
    ((spawnSeq bags (7 * m) [] 0).drop (7 * k)).take 7 = bags k := by
  rw [spawnSeq_eq_take bags hb, List.nil_append]
  have h1 : List.take (7 * m) (flattenBags bags 0 (7 * m)) = flattenBags bags 0 m := by
    have hsplit : flattenBags bags 0 (m + (7 * m - m)) =
        flattenBags bags 0 m ++ flattenBags bags (0 + m) (7 * m - m) :=
      flattenBags_append bags m (7 * m - m) 0
    rw [show 7 * m = m + (7 * m - m) from by omega, hsplit]
    rw [List.take_append_of_le_length (by rw [length_flattenBags bags hb]; omega)]
    rw [List.take_of_length_le (by rw [length_flattenBags bags hb]; omega)]
  rw [h1]
  have h2 : flattenBags bags 0 m = flattenBags bags 0 k ++ flattenBags bags k (m - k) := by
    have := flattenBags_append bags k (m - k) 0
    rw [show k + (m - k) = m from by omega] at this
    simpa using this
  rw [h2, List.drop_left' (by rw [length_flattenBags bags hb])]
  rw [show m - k = (m - k - 1) + 1 from by omega, flattenBags]
  rw [List.take_append_of_le_length (by rw [hb k]),
    List.take_of_length_le (by rw [hb k])]

/-- C9 counterexample: with the first bag drawn by the constant-0 draw
stream and later bags by the identity draw stream (both legal
Fisher-Yates outcomes), the window of 7 consecutive spawns starting at
spawn index 1 contains the kind I twice, so the claim's "any 7
consecutive spawns" fails for windows that straddle a bag boundary. -/
theorem bag_window_counterexample :
    (∀ i, i < 7 → (fun _ : Nat => 0) i ≤ i) ∧
    (∀ i, i < 7 → (id : Nat → Nat) i ≤ i) ∧
    isFullBag (((spawnSeq
      (fun k => generatePieceBag (if k = 0 then fun _ => 0 else id))
      8 [] 0).drop 1).take 7) = false := by decide

/-- C9 (amended): for every family of in-range Fisher-Yates draw
streams, every aligned block of 7 consecutive spawns (spawns `7k` to
`7k+6`) from the continuously-refilled queue contains each of the 7
kinds exactly once; unaligned windows may repeat kinds. -/
theorem bag_fairness (randFam : Nat → Nat → Nat) (m k : Nat) (hk : k < m)
    (hr : ∀ i, i < 7 → randFam k i ≤ i) :
    isFullBag (((spawnSeq (fun j => generatePieceBag (randFam j))
      (7 * m) [] 0).drop (7 * k)).take 7) = true := by
  have hb : ∀ j, ((fun j => generatePieceBag (randFam j)) j).length = 7 :=
    fun j => length_generatePieceBag (randFam j)
  rw [spawnSeq_blocks _ hb m k hk]
  exact generatePieceBag_full _ hr

/-- Witness for C9's amended theorem: the second aligned block (k = 1)
of 14 spawns under constant-0 draw streams. -/
theorem bag_fairness_witness :
    1 < 2 ∧ (∀ i, i < 7 → (fun _ _ : Nat => 0) 1 i ≤ i) ∧
    isFullBag (((spawnSeq (fun j => generatePieceBag ((fun _ _ : Nat => 0) j))
      (7 * 2) [] 0).drop (7 * 1)).take 7) = true :=
  ⟨by omega, by decide, bag_fairness (fun _ _ => 0) 2 1 (by omega) (by decide)⟩

theorem isCompleteRow_zeroRow : isCompleteRow zeroRow = false := by decide

theorem length_filter_add_length_filter_not (p : Row → Bool) (l : Board) :
    (l.filter p).length + (l.filter (fun a => !p a)).length = l.length := by
  induction l with
  | nil => rfl
  | cons a l ih =>
      by_cases h : p a = true
      · rw [List.filter_cons_of_pos h, List.filter_cons_of_neg (by simp [h])]
        simp only [List.length_cons]
        omega
      · rw [List.filter_cons_of_neg h, List.filter_cons_of_pos (by simp [h])]
        simp only [List.length_cons]
        omega

/-- The central characterisation of the `clearLines` scan loop: if every
row at index ≥ `r` is incomplete and the fuel exceeds
`r + (number of complete rows) `, the loop removes exactly the complete
rows and pushes one empty row per removal onto the top. -/
theorem clearLoop_eq (fuel : Nat) :
    ∀ (r : Nat) (b : Board),
      r ≤ b.length →
      (∀ row ∈ b, row.length = BOARD_WIDTH) →
      (∀ row ∈ b.drop r, isCompleteRow row = false) →
      r + (b.filter isCompleteRow).length + 1 ≤ fuel →
      clearLoop fuel r b =
        (List.replicate ((b.filter isCompleteRow).length) zeroRow ++
          b.filter (fun row => !isCompleteRow row),
         (b.filter isCompleteRow).length) := by
  induction fuel with
  | zero => intro r b _ _ _ hf; omega
  | succ fuel ih =>
      intro r b hr hw hdrop hf
      cases r with
      | zero =>
          have hnil : b.filter isCompleteRow = [] :=
            List.filter_eq_nil_iff.mpr fun row hrow => by
              simp [hdrop row (by simpa using hrow)]
          have hself : b.filter (fun row => !isCompleteRow row) = b :=
            List.filter_eq_self.mpr fun row hrow => by
              simp [hdrop row (by simpa using hrow)]
          simp [clearLoop, hnil, hself]
      | succ r' =>
          have hr' : r' < b.length := by omega
          have hbd : b.getD r' [] = b[r'] := List.getD_eq_getElem _ _ hr'
          have hdecomp : b = b.take r' ++ b[r'] :: b.drop (r' + 1) := by
            conv_lhs => rw [← List.take_append_drop r' b]
            rw [List.drop_eq_getElem_cons hr']
          have hlenA : (b.take r').length = r' := by
            rw [List.length_take]
            omega
          have hfD : (b.drop (r' + 1)).filter isCompleteRow = [] :=
            List.filter_eq_nil_iff.mpr fun row hrow => by simp [hdrop row hrow]
          have hfD' : (b.drop (r' + 1)).filter (fun row => !isCompleteRow row) =
              b.drop (r' + 1) :=
            List.filter_eq_self.mpr fun row hrow => by simp [hdrop row hrow]
          rw [clearLoop, hbd]
          by_cases hcomp : isCompleteRow b[r'] = true
          · -- the checked row is complete: shift down and stay on the index
            rw [if_pos hcomp]
            have hfb : b.filter isCompleteRow =
                (b.take r').filter isCompleteRow ++ [b[r']] := by
              conv_lhs => rw [hdecomp]
              rw [List.filter_append, List.filter_cons_of_pos hcomp, hfD]
            have hfb' : b.filter (fun row => !isCompleteRow row) =
                (b.take r').filter (fun row => !isCompleteRow row) ++
                  b.drop (r' + 1) := by
              conv_lhs => rw [hdecomp]
              rw [List.filter_append, List.filter_cons_of_neg (by simp [hcomp]), hfD']
            have hshift : shiftDownAt b r' =
                zeroRow :: (b.take r' ++ b.drop (r' + 1)) := rfl
            have hslen : (shiftDownAt b r').length = b.length := by
              rw [hshift]
              simp only [List.length_cons, List.length_append, hlenA,
                List.length_drop]
              omega
            have hsw : ∀ row ∈ shiftDownAt b r', row.length = BOARD_WIDTH := by
              intro row hrow
              rcases List.mem_cons.mp hrow with rfl | hmem
              · exact List.length_replicate _ _
              · rcases List.mem_append.mp hmem with h2 | h2
                · exact hw row (List.mem_of_mem_take h2)
                · exact hw row (List.mem_of_mem_drop h2)
            have hsdrop : (shiftDownAt b r').drop (r' + 1) = b.drop (r' + 1) := by
              rw [hshift, List.drop_succ_cons, List.drop_left' hlenA]
            have hsf : (shiftDownAt b r').filter isCompleteRow =
                (b.take r').filter isCompleteRow := by
              rw [hshift, List.filter_cons_of_neg (by simp [isCompleteRow_zeroRow]),
                List.filter_append, hfD, List.append_nil]
            have hsf' : (shiftDownAt b r').filter (fun row => !isCompleteRow row) =
                zeroRow :: ((b.take r').filter (fun row => !isCompleteRow row) ++
                  b.drop (r' + 1)) := by
              rw [hshift, List.filter_cons_of_pos (by simp [isCompleteRow_zeroRow]),
                List.filter_append, hfD']
            have hres := ih (r' + 1) (shiftDownAt b r')
              (by omega)
              hsw
              (by rw [hsdrop]; exact hdrop)
              (by rw [hsf]; rw [hfb] at hf; simp at hf; omega)
            rw [hres, hsf, hsf', hfb, hfb']
            simp only [List.length_append, List.length_cons, List.length_nil]
            rw [Prod.mk.injEq]
            constructor
            · rw [show ((b.take r').filter isCompleteRow).length + (0 + 1) =
                  ((b.take r').filter isCompleteRow).length + 1 from by omega]
              rw [List.replicate_succ', List.append_assoc, List.singleton_append]
            · omega
          · -- the checked row is incomplete: move up the scan
            rw [if_neg hcomp]
            exact ih r' b (by omega) hw
              (by
                rw [List.drop_eq_getElem_cons hr']
                intro row hrow
                rcases List.mem_cons.mp hrow with rfl | hmem
                · simpa using hcomp
                · exact hdrop row hmem)
              (by omega)

/-- C5: on every 10×20 board, `clearLines` removes exactly the complete
rows (those with every cell non-zero), shifting the surviving rows down
in order and inserting one empty row at the top per removal — the
returned board is the removed count's worth of empty rows followed by
the incomplete rows in their original order — and reports the removed
count; the height is unchanged. Multiple simultaneously complete rows
(including a row that becomes the checked index after a shift) are
covered because the characterisation holds for every board. -/
theorem clearLines_spec (b : Board) (hl : b.length = BOARD_HEIGHT)
    (hw : ∀ row ∈ b, row.length = BOARD_WIDTH) :
    clearLines b =
      (List.replicate ((b.filter isCompleteRow).length) zeroRow ++
        b.filter (fun row => !isCompleteRow row),
       (b.filter isCompleteRow).length) ∧
    (clearLines b).1.length = b.length := by
  have hBH : BOARD_HEIGHT = 20 := rfl
  have hflen : (b.filter isCompleteRow).length ≤ b.length :=
    List.length_filter_le _ _
  have hdropnil : ∀ row ∈ b.drop BOARD_HEIGHT, isCompleteRow row = false := by
    intro row hrow
    rw [← hl, List.drop_length] at hrow
    exact absurd hrow (List.not_mem_nil row)
  have hmain := clearLoop_eq 50 BOARD_HEIGHT b (by omega) hw hdropnil (by omega)
  rw [clearLines]
  refine ⟨hmain, ?_⟩
  rw [hmain]
  simp only [List.length_append, List.length_replicate]
  have hsum := length_filter_add_length_filter_not isCompleteRow b
  omega

/-- Witness for C5 at the spec's example board (rows 5, 10 and 19
complete, all others partial). -/
theorem clearLines_spec_witness :
    clearExampleBoard.length = BOARD_HEIGHT ∧
    (∀ row ∈ clearExampleBoard, row.length = BOARD_WIDTH) ∧
    (clearLines clearExampleBoard =
      (List.replicate ((clearExampleBoard.filter isCompleteRow).length) zeroRow ++
        clearExampleBoard.filter (fun row => !isCompleteRow row),
       (clearExampleBoard.filter isCompleteRow).length) ∧
     (clearLines clearExampleBoard).1.length = clearExampleBoard.length) :=
  ⟨by decide, by decide, clearLines_spec clearExampleBoard (by decide) (by decide)⟩

end TetrisWF
